import Mathlib

/-!
Verification of the recipe-blog generation pipeline in `recipe.py`
(Flavour Fusion: AI-Driven Recipe Blogging).

The pipeline is embedded shallowly over `List Char`:
  * Python string primitives (`strip`, `replace`, `split`, `title`,
    `re.sub` whitespace collapsing) are translated as executable functions;
  * the injected text generator is a function from a prompt and a length
    budget to either a generated string or a raised exception
    (`Except (List Char) (List Char)`);
  * the `random.choice` calls are modelled by explicit index parameters
    (a joke index and one template index per section);
  * `initialize_models` wraps an external library, so only its observable
    outcome (a generator, or `None` on failure) enters the model, as an
    `Option` parameter.
-/

/-- Python whitespace class (`str.strip` default set and `re` module class
`\s` for ASCII): space, tab, newline, carriage return, vertical tab,
form feed. -/
def isPySpace (c : Char) : Bool :=
  (c == ' ') || (c == '\t') || (c == '\n') || (c == '\r') || (c == '\x0b') || (c == '\x0c')

/-- Python `str.strip()`: drop leading and trailing whitespace. -/
def pyStrip (s : List Char) : List Char :=
  ((s.dropWhile isPySpace).reverse.dropWhile isPySpace).reverse

/-- Scanner for the whitespace-collapsing substitution: the flag records
whether the scanner is inside a whitespace run.  A run's first whitespace
character emits the single replacement space; the rest of the run emits
nothing; any other character passes through and closes the run. -/
def collapseWsGo : Bool → List Char → List Char
  | _, [] => []
  | inRun, c :: r =>
    if isPySpace c = true then
      (if inRun then collapseWsGo true r else ' ' :: collapseWsGo true r)
    else c :: collapseWsGo false r

/-- Python `re.sub` applied with the whitespace-run pattern and a single
space as replacement (line 103 of `recipe.py`): every maximal run of
whitespace characters becomes one space. -/
def collapseWs (s : List Char) : List Char := collapseWsGo false s

/-- One step of Python `str.title()`: a cased (here: ASCII alphabetic)
character is uppercased when the previous character was not cased and
lowercased otherwise; other characters pass through and reset the state. -/
def pyTitleGo : Bool → List Char → List Char
  | _, [] => []
  | prevCased, c :: r =>
    if c.isAlpha = true then
      (if prevCased then c.toLower else c.toUpper) :: pyTitleGo true r
    else
      c :: pyTitleGo false r

/-- Python `str.title()` (line 104 of `recipe.py`). -/
def pyTitle (s : List Char) : List Char := pyTitleGo false s

/-- Title normalisation of `generate_recipe_blog` (lines 102-104):
`topic.strip()`, collapse whitespace runs to one space, then title-case. -/
def normalizeTopic (topic : List Char) : List Char :=
  pyTitle (collapseWs (pyStrip topic))

/-- Python `str.split(sep)` for a one-character separator: keeps empty
chunks, `split "" = [""]`. -/
def splitOnChar (sep : Char) : List Char → List (List Char)
  | [] => [[]]
  | c :: r =>
    if c = sep then [] :: splitOnChar sep r
    else
      match splitOnChar sep r with
      | [] => [[c]]
      | w :: ws => (c :: w) :: ws

/-- Fuelled scanner for Python `str.replace`: at each position, if `old`
is non-empty and matches, emit `new` and jump past the match, otherwise
emit the current character and advance.  The fuel only serves structural
termination; each step consumes at least one character, so fuel
`s.length` never runs out. -/
def pyReplaceGo (old new : List Char) : Nat → List Char → List Char
  | _, [] => []
  | 0, s => s
  | fuel + 1, c :: r =>
    if ¬ old = [] ∧ List.take old.length (c :: r) = old then
      new ++ pyReplaceGo old new fuel (List.drop old.length (c :: r))
    else
      c :: pyReplaceGo old new fuel r

/-- Python `str.replace(old, new)`: replace every non-overlapping
occurrence of `old`, scanning left to right.  (The pipeline only calls
this with a non-empty `old`, namely a generation prompt; the `old = ""`
corner of Python's `replace` is therefore irrelevant to the model and is
not mimicked: with an empty `old` this function returns `s`.) -/
def pyReplace (s old new : List Char) : List Char :=
  pyReplaceGo old new s.length s

/-- The echo-stripping post-processing the pipeline applies to every raw
generator response (e.g. line 122 of `recipe.py`):
`response.replace(prompt, "").strip()`. -/
def stripEcho (prompt resp : List Char) : List Char :=
  pyStrip (pyReplace resp prompt [])

/-- Scanner for the newline-collapsing substitution: the counter is the
number of consecutive newlines seen immediately before the current
position.  Replacing every run of three or more newlines by exactly two
is the same as keeping only the first two newlines of every maximal run,
which is what this scanner does. -/
def collapseNlGo : Nat → List Char → List Char
  | _, [] => []
  | k, c :: r =>
    if c = '\n' then
      (if 2 ≤ k then collapseNlGo (k + 1) r else '\n' :: collapseNlGo (k + 1) r)
    else c :: collapseNlGo 0 r

/-- The final whitespace post-processing (line 179 of `recipe.py`):
`re.sub` replacing every run of three or more consecutive newlines with
exactly two newlines. -/
def collapseNewlines (s : List Char) : List Char := collapseNlGo 0 s

/-- Number of positions of `s` at which `pat` occurs as a contiguous
substring. -/
def countOccurrences (pat s : List Char) : Nat :=
  ((List.range (s.length + 1)).filter
    (fun i => List.take pat.length (List.drop i s) == pat)).length

/-- The fixed joke catalog `programmer_jokes` (lines 16-27 of `recipe.py`). -/
def programmerJokes : List (List Char) :=
  [ ("Why do programmers prefer dark mode? Because light attracts bugs!").data,
    ("Why was the JavaScript developer sad? Because he didn\x27t get arrays!").data,
    ("What\x27s a programmer\x27s favorite hangout place? The Foo Bar!").data,
    ("How many programmers does it take to change a light bulb? None, that\x27s a hardware problem!").data,
    ("Why do Java developers wear glasses? Because they don\x27t C#!").data,
    ("A SQL query walks into a bar, walks up to two tables and asks, \x27Can I join you?\x27").data,
    ("Why did the developer go broke? Because he used up all his cache!").data,
    ("Why don\x27t programmers like nature? It has too many bugs and no debugging tool!").data,
    ("What\x27s a programmer\x27s favorite place to hang out? Foo Bar!").data,
    ("Why did the programmer quit his job? Because he didn\x27t get arrays!").data ]

/-- Intro section templates (`recipe_templates["intro"]`).  Each source
template string is a heading line, a blank line, and the section body; the
string literals are split at those seams so the heading constant below can
be shared. -/
def introTemplate (c : Fin 3) (title introText : List Char) : List Char :=
  match c with
  | 0 => ("# ").data ++ title ++ ("\n\n").data ++ introText
  | 1 => ("# Delicious ").data ++ title ++ ("\n\n").data ++ introText
  | 2 => ("# ").data ++ title ++ (": A Culinary Adventure").data ++ ("\n\n").data ++ introText

/-- Heading line of the chosen intro template. -/
def introHeading (c : Fin 3) (title : List Char) : List Char :=
  match c with
  | 0 => ("# ").data ++ title
  | 1 => ("# Delicious ").data ++ title
  | 2 => ("# ").data ++ title ++ (": A Culinary Adventure").data

/-- Ingredients section templates (`recipe_templates["ingredients"]`). -/
def ingredientsTemplate (c : Fin 3) (lst : List Char) : List Char :=
  match c with
  | 0 => ("## Ingredients").data ++ ("\n\n").data ++ lst
  | 1 => ("## What You\x27ll Need").data ++ ("\n\n").data ++ lst
  | 2 => ("## Gather These Ingredients").data ++ ("\n\n").data ++ lst

/-- Heading line of the chosen ingredients template. -/
def ingredientsHeading (c : Fin 3) : List Char :=
  match c with
  | 0 => ("## Ingredients").data
  | 1 => ("## What You\x27ll Need").data
  | 2 => ("## Gather These Ingredients").data

/-- Instructions section templates (`recipe_templates["instructions"]`). -/
def instructionsTemplate (c : Fin 3) (lst : List Char) : List Char :=
  match c with
  | 0 => ("## Instructions").data ++ ("\n\n").data ++ lst
  | 1 => ("## Method").data ++ ("\n\n").data ++ lst
  | 2 => ("## Step-by-Step Guide").data ++ ("\n\n").data ++ lst

/-- Heading line of the chosen instructions template. -/
def instructionsHeading (c : Fin 3) : List Char :=
  match c with
  | 0 => ("## Instructions").data
  | 1 => ("## Method").data
  | 2 => ("## Step-by-Step Guide").data

/-- Tips section templates (`recipe_templates["tips"]`). -/
def tipsTemplate (c : Fin 3) (txt : List Char) : List Char :=
  match c with
  | 0 => ("## Tips and Variations").data ++ ("\n\n").data ++ txt
  | 1 => ("## Make It Your Own").data ++ ("\n\n").data ++ txt
  | 2 => ("## Chef\x27s Tips").data ++ ("\n\n").data ++ txt

/-- Heading line of the chosen tips template. -/
def tipsHeading (c : Fin 3) : List Char :=
  match c with
  | 0 => ("## Tips and Variations").data
  | 1 => ("## Make It Your Own").data
  | 2 => ("## Chef\x27s Tips").data

/-- Nutrition section templates (`recipe_templates["nutrition"]`). -/
def nutritionTemplate (c : Fin 3) (txt : List Char) : List Char :=
  match c with
  | 0 => ("## Nutritional Information").data ++ ("\n\n").data ++ txt
  | 1 => ("## Nutrition Facts").data ++ ("\n\n").data ++ txt
  | 2 => ("## Health Benefits").data ++ ("\n\n").data ++ txt

/-- Heading line of the chosen nutrition template. -/
def nutritionHeading (c : Fin 3) : List Char :=
  match c with
  | 0 => ("## Nutritional Information").data
  | 1 => ("## Nutrition Facts").data
  | 2 => ("## Health Benefits").data

/-- Conclusion section templates (`recipe_templates["conclusion"]`). -/
def conclusionTemplate (c : Fin 3) (txt : List Char) : List Char :=
  match c with
  | 0 => ("## Final Thoughts").data ++ ("\n\n").data ++ txt
  | 1 => ("## Enjoy!").data ++ ("\n\n").data ++ txt
  | 2 => ("## Bon Appétit").data ++ ("\n\n").data ++ txt

/-- Heading line of the chosen conclusion template. -/
def conclusionHeading (c : Fin 3) : List Char :=
  match c with
  | 0 => ("## Final Thoughts").data
  | 1 => ("## Enjoy!").data
  | 2 => ("## Bon Appétit").data

/-- The six generation prompts (lines 120, 125, 139, 155, 160, 165). -/
def introPrompt (title : List Char) : List Char :=
  ("Write a short introduction about ").data ++ title
    ++ (" recipe. Talk about its origin and flavors.").data

/-- Ingredients prompt. -/
def ingredientsPrompt (title : List Char) : List Char :=
  ("List ingredients for ").data ++ title ++ (":").data

/-- Instructions prompt. -/
def instructionsPrompt (title : List Char) : List Char :=
  ("Step by step instructions to make ").data ++ title ++ (":").data

/-- Tips prompt. -/
def tipsPrompt (title : List Char) : List Char :=
  ("Provide cooking tips and variations for ").data ++ title ++ (":").data

/-- Nutrition prompt. -/
def nutritionPrompt (title : List Char) : List Char :=
  ("Approximate nutritional information for ").data ++ title ++ (":").data

/-- Conclusion prompt. -/
def conclusionPrompt (title : List Char) : List Char :=
  ("Write a short conclusion about enjoying ").data ++ title ++ (":").data

/-- The `section_words` dictionary (lines 107-114).  The source computes
`int(word_count * 0.15)` etc. with Python floats; here the same values are
written with exact rational arithmetic (they agree on the slider range).
The dictionary is built and then never read by the rest of the function. -/
def sectionWords (w : Nat) : List (List Char × Nat) :=
  [ (("intro").data, w * 15 / 100),
    (("ingredients").data, w * 20 / 100),
    (("instructions").data, w * 35 / 100),
    (("tips").data, w * 15 / 100),
    (("nutrition").data, w * 5 / 100),
    (("conclusion").data, w * 10 / 100) ]

/-- Ingredients formatter (lines 129-136): split the raw text on newlines;
every non-blank line is stripped; a stripped line not starting with `*` or
`-` is bulleted with a leading dash, otherwise kept; each emitted line gets
a trailing newline, accumulated left to right. -/
def formatIngredients (txt : List Char) : List Char :=
  (splitOnChar '\n' txt).foldl (fun acc line =>
    let l := pyStrip line
    if ¬ l = [] then
      if ¬ l.headD ' ' = '*' ∧ ¬ l.headD ' ' = '-' then
        acc ++ ("- ").data ++ l ++ ("\n").data
      else
        acc ++ l ++ ("\n").data
    else acc) []

/-- Instructions formatter (lines 143-152): split on newlines; every
non-blank line is stripped; a stripped line whose first character is not a
digit and that does not start with `*` or `-` receives the current step
number (which then increments); each emitted entry ends with a blank
line. -/
def formatInstructions (txt : List Char) : List Char :=
  ((splitOnChar '\n' txt).foldl (fun (st : List Char × Nat) line =>
    let l := pyStrip line
    if ¬ l = [] then
      if ¬ (l.headD ' ').isDigit = true ∧ ¬ l.headD ' ' = '*' ∧ ¬ l.headD ' ' = '-' then
        (st.1 ++ (Nat.repr st.2).data ++ (". ").data ++ l ++ ("\n\n").data, st.2 + 1)
      else
        (st.1 ++ l ++ ("\n\n").data, st.2)
    else st) ([], 1)).1

/-- The injected text generator: a prompt and a `max_length` budget give
either the generated text or a raised exception (its message). -/
def RecipeGen : Type := List Char → Nat → Except (List Char) (List Char)

/-- The template indices drawn by the six `random.choice` calls of the
assembly step (lines 171-176). -/
structure TemplateChoice where
  intro : Fin 3
  ingredients : Fin 3
  instructions : Fin 3
  tips : Fin 3
  nutrition : Fin 3
  conclusion : Fin 3

/-- Concatenation of the six filled templates separated by blank lines
(lines 170-176), before newline collapsing. -/
def blogContent (title : List Char) (tc : TemplateChoice)
    (introText ingList insList tipsText nutText conText : List Char) : List Char :=
  introTemplate tc.intro title introText ++ ("\n\n").data
    ++ ingredientsTemplate tc.ingredients ingList ++ ("\n\n").data
    ++ instructionsTemplate tc.instructions insList ++ ("\n\n").data
    ++ tipsTemplate tc.tips tipsText ++ ("\n\n").data
    ++ nutritionTemplate tc.nutrition nutText ++ ("\n\n").data
    ++ conclusionTemplate tc.conclusion conText

/-- The body of the `try` block of `generate_recipe_blog` (lines 100-181):
normalise the title, build the (unused) per-section word budgets, call the
generator once per section with the literal `max_length` arguments of the
source (100, 200, 400, 150, 100, 100), strip the echoed prompt, format the
list sections, assemble the six templates and collapse newline runs.  A
raised exception anywhere aborts the rest and is propagated as
`Except.error`. -/
def tryBody (gen : RecipeGen) (topic : List Char) (wordCount : Nat)
    (tc : TemplateChoice) : Except (List Char) (List Char) :=
  let title := normalizeTopic topic
  let _sw := sectionWords wordCount
  match gen (introPrompt title) 100 with
  | Except.error e => Except.error e
  | Except.ok introResp =>
    let introText := stripEcho (introPrompt title) introResp
    match gen (ingredientsPrompt title) 200 with
    | Except.error e => Except.error e
    | Except.ok ingResp =>
      let ingList := formatIngredients (stripEcho (ingredientsPrompt title) ingResp)
      match gen (instructionsPrompt title) 400 with
      | Except.error e => Except.error e
      | Except.ok insResp =>
        let insList := formatInstructions (stripEcho (instructionsPrompt title) insResp)
        match gen (tipsPrompt title) 150 with
        | Except.error e => Except.error e
        | Except.ok tipsResp =>
          let tipsText := stripEcho (tipsPrompt title) tipsResp
          match gen (nutritionPrompt title) 100 with
          | Except.error e => Except.error e
          | Except.ok nutResp =>
            let nutText := stripEcho (nutritionPrompt title) nutResp
            match gen (conclusionPrompt title) 100 with
            | Except.error e => Except.error e
            | Except.ok conResp =>
              let conText := stripEcho (conclusionPrompt title) conResp
              Except.ok (collapseNewlines
                (blogContent title tc introText ingList insList tipsText nutText conText))

/-- Error string returned when no generator could be obtained (line 95). -/
def errInit : List Char :=
  ("Error initializing model. Please check your Colab runtime.").data

/-- Leading text of the document returned when the `try` block raises
(line 184): the exception text is appended to it. -/
def errHead : List Char :=
  ("Error generating recipe blog: ").data

/-- `generate_recipe_blog(topic, word_count, text_generator)` (lines
91-184).  `textGenerator` is the injected generator (`None` when omitted);
`initOutcome` is the observable result of the one-time `initialize_models`
call performed when no generator is injected (`None` when that call fails).
`jokeIdx` and `tc` stand for the `random.choice` draws.  Returns the
`(joke, document)` pair of strings. -/
def generateRecipeBlog (textGenerator initOutcome : Option RecipeGen)
    (topic : List Char) (wordCount : Nat) (jokeIdx : Fin programmerJokes.length)
    (tc : TemplateChoice) : List Char × List Char :=
  match (match textGenerator with | some g => some g | none => initOutcome) with
  | none => (errInit, [])
  | some gen =>
    let joke := programmerJokes.get jokeIdx
    match tryBody gen topic wordCount tc with
    | Except.ok blog => (joke, blog)
    | Except.error e => (joke, errHead ++ e)

/-- Modelled from the spec: the literal reading of claim C6's ingredients
formatter, in which the bullet check and the kept line are the raw
(unstripped) line: split on line breaks, drop lines consisting only of
whitespace, prefix every remaining line that does not already start with
`*` or `-` with a dash and a space, keep lines that do start with `*` or
`-` as-is, and join with trailing newlines. -/
def ingredientsSpecFormat (txt : List Char) : List Char :=
  (splitOnChar '\n' txt).foldl (fun acc line =>
    if ¬ pyStrip line = [] then
      if ¬ line.headD ' ' = '*' ∧ ¬ line.headD ' ' = '-' then
        acc ++ ("- ").data ++ line ++ ("\n").data
      else
        acc ++ line ++ ("\n").data
    else acc) []

/-- A generator stub whose exception text reports the `max_length` budget
it received; used to observe the budget actually passed by the pipeline. -/
def probeGen : RecipeGen := fun _ n => Except.error ((Nat.repr n).data)

/-- A generator stub that always succeeds with the fixed text `x`. -/
def constGen : RecipeGen := fun _ _ => Except.ok (("x").data)

/-- A generator stub that always raises with message `boom`. -/
def boomGen : RecipeGen := fun _ _ => Except.error (("boom").data)

/-- A generator stub that always succeeds with the empty string. -/
def emptyGen : RecipeGen := fun _ _ => Except.ok []

/-- The template draw selecting the first template of every section. -/
def tcZero : TemplateChoice := ⟨0, 0, 0, 0, 0, 0⟩

/-- The joke draw selecting the first catalog entry. -/
def jokeZero : Fin programmerJokes.length := ⟨0, by decide⟩

/-- The properties claim C8 attributes to title normalisation, with the
capitalisation clause restricted to words whose first character is a
letter: every surviving whitespace character is a plain space, no chunk
between spaces is empty (hence no leading, trailing or doubled spaces),
and every word starting with a letter starts with an uppercase letter. -/
def NormalizedShape (t : List Char) : Prop :=
  (∀ c ∈ t, isPySpace c = true → c = ' ')
  ∧ (¬ t = [] → ∀ w ∈ splitOnChar ' ' t, ¬ w = [])
  ∧ (∀ w ∈ splitOnChar ' ' t, (w.headD ' ').isAlpha = true → (w.headD ' ').isUpper = true)

/-! ### Character-level facts about `Char.toUpper` and `Char.toLower` -/

theorem toNat_ofNat_of_valid {n : Nat} (h : n.isValidChar) : (Char.ofNat n).toNat = n := by
  simp [Char.ofNat, h, Char.ofNatAux, Char.toNat, UInt32.toNat, BitVec.toNat_ofNatLt]

theorem char_eq_of_toNat_eq {c d : Char} (h : c.toNat = d.toNat) : c = d := by
  apply Char.ext
  exact UInt32.toNat.inj h

theorem toUpper_toNat_of_bounds {c : Char} (h : 97 ≤ c.toNat ∧ c.toNat ≤ 122) :
    (c.toUpper).toNat = c.toNat - 32 := by
  have hv : (c.toNat - 32).isValidChar := by
    left
    omega
  simp only [Char.toUpper]
  rw [if_pos ⟨h.1, h.2⟩]
  exact toNat_ofNat_of_valid hv

theorem toUpper_of_not_bounds {c : Char} (h : ¬ (97 ≤ c.toNat ∧ c.toNat ≤ 122)) :
    c.toUpper = c := by
  simp only [Char.toUpper]
  rw [if_neg]
  intro hc
  exact h ⟨hc.1, hc.2⟩

theorem toLower_toNat_of_bounds {c : Char} (h : 65 ≤ c.toNat ∧ c.toNat ≤ 90) :
    (c.toLower).toNat = c.toNat + 32 := by
  have hv : (c.toNat + 32).isValidChar := by
    left
    omega
  simp only [Char.toLower]
  rw [if_pos ⟨h.1, h.2⟩]
  exact toNat_ofNat_of_valid hv

theorem toLower_of_not_bounds {c : Char} (h : ¬ (65 ≤ c.toNat ∧ c.toNat ≤ 90)) :
    c.toLower = c := by
  simp only [Char.toLower]
  rw [if_neg]
  intro hc
  exact h ⟨hc.1, hc.2⟩

theorem isUpper_iff_toNat (c : Char) : c.isUpper = true ↔ (65 ≤ c.toNat ∧ c.toNat ≤ 90) := by
  simp [Char.isUpper, UInt32.le_def, BitVec.le_def, Char.toNat, UInt32.toNat]

theorem isLower_iff_toNat (c : Char) : c.isLower = true ↔ (97 ≤ c.toNat ∧ c.toNat ≤ 122) := by
  simp [Char.isLower, UInt32.le_def, BitVec.le_def, Char.toNat, UInt32.toNat]

theorem toUpper_ne_of_ne_of_low {c x : Char} (hx : x.toNat < 65) (h : ¬ c = x) :
    ¬ c.toUpper = x := by
  by_cases hb : 97 ≤ c.toNat ∧ c.toNat ≤ 122
  · have h1 := toUpper_toNat_of_bounds hb
    intro he
    rw [he] at h1
    omega
  · rw [toUpper_of_not_bounds hb]
    exact h

theorem toLower_ne_of_ne_of_low {c x : Char} (hx : x.toNat < 97) (h : ¬ c = x) :
    ¬ c.toLower = x := by
  by_cases hb : 65 ≤ c.toNat ∧ c.toNat ≤ 90
  · have h1 := toLower_toNat_of_bounds hb
    intro he
    rw [he] at h1
    omega
  · rw [toLower_of_not_bounds hb]
    exact h

theorem isUpper_toUpper_of_isAlpha {c : Char} (h : c.isAlpha = true) :
    (c.toUpper).isUpper = true := by
  simp only [Char.isAlpha, Bool.or_eq_true] at h
  rcases h with h | h
  · rw [isUpper_iff_toNat] at h
    rw [toUpper_of_not_bounds (by omega)]
    rw [isUpper_iff_toNat]
    omega
  · rw [isLower_iff_toNat] at h
    have h1 := toUpper_toNat_of_bounds h
    rw [isUpper_iff_toNat]
    omega

/-! ### Structure of the newline-collapsing scanner -/

theorem collapseNlGo_cons_nl_high {k : Nat} (hk : 2 ≤ k) (r : List Char) :
    collapseNlGo k ('\n' :: r) = collapseNlGo (k + 1) r := by
  simp only [collapseNlGo]
  rw [if_pos trivial, if_pos hk]

theorem collapseNlGo_cons_nl_low {k : Nat} (hk : ¬ 2 ≤ k) (r : List Char) :
    collapseNlGo k ('\n' :: r) = '\n' :: collapseNlGo (k + 1) r := by
  simp only [collapseNlGo]
  rw [if_pos trivial, if_neg hk]

theorem collapseNlGo_cons_other {k : Nat} {c : Char} (hc : ¬ c = '\n') (r : List Char) :
    collapseNlGo k (c :: r) = c :: collapseNlGo 0 r := by
  simp only [collapseNlGo]
  rw [if_neg hc]

theorem collapseNlGo_state_irrel (s : List Char) :
    ∀ k k', 2 ≤ k → 2 ≤ k' → collapseNlGo k s = collapseNlGo k' s := by
  induction s with
  | nil => intro k k' _ _; rfl
  | cons c r ih =>
    intro k k' hk hk'
    by_cases hc : c = '\n'
    · subst hc
      rw [collapseNlGo_cons_nl_high hk, collapseNlGo_cons_nl_high hk']
      exact ih (k + 1) (k' + 1) (by omega) (by omega)
    · rw [collapseNlGo_cons_other hc, collapseNlGo_cons_other hc]

theorem collapseNlGo_idem (s : List Char) :
    ∀ k, collapseNlGo k (collapseNlGo k s) = collapseNlGo k s := by
  induction s with
  | nil => intro k; rfl
  | cons c r ih =>
    intro k
    by_cases hc : c = '\n'
    · subst hc
      by_cases hk : 2 ≤ k
      · rw [collapseNlGo_cons_nl_high hk]
        rw [collapseNlGo_state_irrel (collapseNlGo (k + 1) r) k (k + 1) hk (by omega)]
        exact ih (k + 1)
      · rw [collapseNlGo_cons_nl_low hk, collapseNlGo_cons_nl_low hk]
        rw [ih (k + 1)]
    · rw [collapseNlGo_cons_other hc, collapseNlGo_cons_other hc, ih 0]

theorem collapseNlGo_append_notnl (m v : List Char)
    (hv : v = [] ∨ ¬ v.headD ' ' = '\n') :
    ∀ k, collapseNlGo k (m ++ v) = collapseNlGo k m ++ collapseNlGo 0 v := by
  induction m with
  | nil =>
    intro k
    rcases hv with hv | hv
    · subst hv; rfl
    · cases v with
      | nil => rfl
      | cons c v' =>
        simp only [List.headD_cons] at hv
        simp only [List.nil_append, collapseNlGo]
        rw [if_neg hv, if_neg hv]
  | cons c m' ih =>
    intro k
    by_cases hc : c = '\n'
    · subst hc
      by_cases hk : 2 ≤ k
      · rw [List.cons_append, collapseNlGo_cons_nl_high hk, collapseNlGo_cons_nl_high hk,
          ih (k + 1)]
      · rw [List.cons_append, collapseNlGo_cons_nl_low hk, collapseNlGo_cons_nl_low hk,
          ih (k + 1), List.cons_append]
    · rw [List.cons_append, collapseNlGo_cons_other hc, collapseNlGo_cons_other hc, ih 0,
        List.cons_append]

theorem collapseNlGo_append_nlfree (a : List Char) :
    ∀ (b : List Char), (∀ c ∈ a, ¬ c = '\n') → ¬ a = [] →
      ∀ k, collapseNlGo k (a ++ b) = a ++ collapseNlGo 0 b := by
  induction a with
  | nil => intro b _ hne; exact absurd rfl hne
  | cons c a' ih =>
    intro b ha _ k
    have hc : ¬ c = '\n' := ha c (List.mem_cons_self c a')
    rw [List.cons_append, collapseNlGo_cons_other hc]
    by_cases ha' : a' = []
    · subst ha'; rfl
    · rw [ih b (fun x hx => ha x (List.mem_cons_of_mem c hx)) ha' 0, List.cons_append]

theorem collapse_head_step {b : List Char} (a : List Char)
    (ha : ∀ c ∈ a, ¬ c = '\n') (hne : ¬ a = []) :
    collapseNlGo 0 (a ++ b) = a ++ collapseNlGo 0 b :=
  collapseNlGo_append_nlfree a b ha hne 0

theorem collapse_mid_step {m rest : List Char} (H : List Char)
    (hH : ∀ c ∈ H, ¬ c = '\n') (hne : ¬ H = []) :
    collapseNlGo 0 (m ++ (H ++ rest))
      = collapseNlGo 0 m ++ (H ++ collapseNlGo 0 rest) := by
  have hv : (H ++ rest) = [] ∨ ¬ (H ++ rest).headD ' ' = '\n' := by
    right
    cases H with
    | nil => exact absurd rfl hne
    | cons c H' =>
      simp only [List.cons_append, List.headD_cons]
      exact hH c (List.mem_cons_self c H')
  rw [collapseNlGo_append_notnl m (H ++ rest) hv 0,
    collapseNlGo_append_nlfree H rest hH hne 0]

/-! ### Claim theorems: the easy computational ones -/

/-- C5: the instructions formatter on `"Mix flour\n2. Add sugar\nBake"`
yields `"1. Mix flour\n\n2. Add sugar\n\n2. Bake\n\n"`: the counter starts
at 1, increments only for the lines the formatter itself numbers, and the
pre-numbered line is kept without affecting the counter. -/
theorem c5_instructions_example :
    formatInstructions (("Mix flour\n2. Add sugar\nBake").data)
      = ("1. Mix flour\n\n2. Add sugar\n\n2. Bake\n\n").data := by
  decide

/-- C1: the pipeline does NOT pass the `word_count`-scaled budgets to the
generator.  A probing generator that reports the `max_length` it receives
shows the intro call gets the hardcoded budget 100, while the claimed
scaled budget for the intro section at `word_count = 800` is
`int(800 * 0.15) = 120` (the `section_words` dictionary holding exactly
those scaled values is computed and then never used). -/
theorem c1_budget_constants :
    (generateRecipeBlog (some probeGen) none (("pasta").data) 800 jokeZero tcZero).2
        = errHead ++ ("100").data
      ∧ sectionWords 800
        = [ (("intro").data, 120), (("ingredients").data, 160),
            (("instructions").data, 280), (("tips").data, 120),
            (("nutrition").data, 40), (("conclusion").data, 80) ]
      ∧ ¬ (generateRecipeBlog (some probeGen) none (("pasta").data) 800 jokeZero tcZero).2
          = errHead ++ (Nat.repr 120).data := by
  refine ⟨by decide, by decide, by decide⟩

/-- C2: with an injected (ready) generator, any exception raised inside
the generation/formatting block is caught: the pipeline returns the
normally drawn joke — an element of the fixed catalog — paired with a
document string that embeds the failure reason after a fixed error
preamble.  No exception escapes: the result is always this total pair. -/
theorem c2_failure_contract (gen : RecipeGen) (initOutcome : Option RecipeGen)
    (topic : List Char) (wordCount : Nat) (jokeIdx : Fin programmerJokes.length)
    (tc : TemplateChoice) (e : List Char)
    (h : tryBody gen topic wordCount tc = Except.error e) :
    generateRecipeBlog (some gen) initOutcome topic wordCount jokeIdx tc
        = (programmerJokes.get jokeIdx, errHead ++ e)
      ∧ programmerJokes.get jokeIdx ∈ programmerJokes := by
  constructor
  · simp [generateRecipeBlog, h]
  · exact List.get_mem programmerJokes jokeIdx.1 jokeIdx.2

theorem c2_failure_contract_witness :
    generateRecipeBlog (some boomGen) none (("x").data) 5 jokeZero tcZero
        = (programmerJokes.get jokeZero, errHead ++ ("boom").data)
      ∧ programmerJokes.get jokeZero ∈ programmerJokes :=
  c2_failure_contract boomGen none (("x").data) 5 jokeZero tcZero (("boom").data) rfl

/-- C7: with no injected generator and failing one-time initialization,
the pipeline returns the fixed initialization-error message paired with
the empty document, for every topic, word count and random draw; the
message is an error explanation, not one of the catalog jokes, and no
generator is ever consulted (none exists on this path). -/
theorem c7_init_failure (topic : List Char) (wordCount : Nat)
    (jokeIdx : Fin programmerJokes.length) (tc : TemplateChoice) :
    generateRecipeBlog none none topic wordCount jokeIdx tc = (errInit, [])
      ∧ ¬ errInit ∈ programmerJokes := by
  constructor
  · rfl
  · decide

/-- C10: `word_count` has no influence on the result.  For a fixed topic,
fixed injected generator (or initialization outcome) and fixed random
draws, two runs with different word counts return identical pairs: the
per-section budgets computed from `word_count` are dead and the generator
is called with constant `max_length` arguments. -/
theorem c10_word_count_noninterference (textGenerator initOutcome : Option RecipeGen)
    (topic : List Char) (jokeIdx : Fin programmerJokes.length) (tc : TemplateChoice)
    (w1 w2 : Nat) :
    generateRecipeBlog textGenerator initOutcome topic w1 jokeIdx tc
      = generateRecipeBlog textGenerator initOutcome topic w2 jokeIdx tc := by
  rfl

/-- C3 counterexample: the echo post-processing is Python `str.replace`,
which removes every occurrence of the prompt, not only the prefix one.
For prompt `"ab"` and response `"abXab"` the claim predicts `"Xab"` (only
the prefix occurrence removed), but the code yields `"X"`. -/
theorem c3_echo_counterexample :
    stripEcho (("ab").data) (("abXab").data) = ("X").data
      ∧ ¬ stripEcho (("ab").data) (("abXab").data) = ("Xab").data := by
  refine ⟨by decide, by decide⟩

set_option maxRecDepth 100000 in
/-- C4 counterexample: a successful run whose document contains the
chosen intro heading twice.  With topic `"Ingredients"` and the first
template of every section, the intro heading `"# Ingredients"` occurs
once as the intro heading line and once inside the `"## Ingredients"`
heading, so it does not occur exactly once. -/
theorem c4_exactly_once_counterexample :
    tryBody constGen (("Ingredients").data) 800 tcZero
        = Except.ok ((generateRecipeBlog (some constGen) none (("Ingredients").data)
            800 jokeZero tcZero).2)
      ∧ countOccurrences (introHeading 0 (normalizeTopic (("Ingredients").data)))
          ((generateRecipeBlog (some constGen) none (("Ingredients").data)
            800 jokeZero tcZero).2)
        = 2 := by
  refine ⟨rfl, by decide⟩

/-- C6 counterexample: the formatter strips each line before both the
bullet check and the output, while the claim checks and keeps the raw
line.  On `"flour\n  - sugar"` the code yields `"- flour\n- sugar\n"`,
the claim's literal reading `"- flour\n-   - sugar\n"`. -/
theorem c6_ingredients_counterexample :
    formatIngredients (("flour\n  - sugar").data) = ("- flour\n- sugar\n").data
      ∧ ingredientsSpecFormat (("flour\n  - sugar").data) = ("- flour\n-   - sugar\n").data
      ∧ ¬ formatIngredients (("flour\n  - sugar").data)
          = ingredientsSpecFormat (("flour\n  - sugar").data) := by
  refine ⟨by decide, by decide, by decide⟩

/-- C8 counterexample: normalization of the topic `"1a"` produces the
title `"1A"`, whose only word starts with the digit `'1'`, which is not
an uppercase character — refuting "every word's first character is
uppercase". -/
theorem c8_uppercase_counterexample :
    normalizeTopic (("1a").data) = ("1A").data
      ∧ ¬ (∀ w ∈ splitOnChar ' ' (normalizeTopic (("1a").data)),
            (w.headD ' ').isUpper = true) := by
  refine ⟨by decide, by decide⟩

/-- C9: the newline-collapsing post-process is idempotent. -/
theorem c9_collapse_idempotent (s : List Char) :
    collapseNewlines (collapseNewlines s) = collapseNewlines s :=
  collapseNlGo_idem s 0

/-! ### Characters of the normalised title -/

theorem collapseWsGo_cons_sp_true {c : Char} (hc : isPySpace c = true) (r : List Char) :
    collapseWsGo true (c :: r) = collapseWsGo true r := by
  simp [collapseWsGo, hc]

theorem collapseWsGo_cons_sp_false {c : Char} (hc : isPySpace c = true) (r : List Char) :
    collapseWsGo false (c :: r) = ' ' :: collapseWsGo true r := by
  simp [collapseWsGo, hc]

theorem collapseWsGo_cons_nsp {b : Bool} {c : Char} (hc : ¬ isPySpace c = true)
    (r : List Char) : collapseWsGo b (c :: r) = c :: collapseWsGo false r := by
  simp [collapseWsGo, hc]

theorem pyTitleGo_cons_alpha_true {c : Char} (hc : c.isAlpha = true) (r : List Char) :
    pyTitleGo true (c :: r) = c.toLower :: pyTitleGo true r := by
  simp [pyTitleGo, hc]

theorem pyTitleGo_cons_alpha_false {c : Char} (hc : c.isAlpha = true) (r : List Char) :
    pyTitleGo false (c :: r) = c.toUpper :: pyTitleGo true r := by
  simp [pyTitleGo, hc]

theorem pyTitleGo_cons_nalpha {b : Bool} {c : Char} (hc : ¬ c.isAlpha = true)
    (r : List Char) : pyTitleGo b (c :: r) = c :: pyTitleGo false r := by
  simp [pyTitleGo, hc]

theorem mem_collapseWsGo {x : Char} :
    ∀ (b : Bool) (s : List Char), x ∈ collapseWsGo b s →
      x = ' ' ∨ (x ∈ s ∧ isPySpace x = false) := by
  intro b s
  induction s generalizing b with
  | nil => intro h; exact absurd h (List.not_mem_nil x)
  | cons c r ih =>
    intro h
    by_cases hc : isPySpace c = true
    · cases b with
      | true =>
        rw [collapseWsGo_cons_sp_true hc] at h
        rcases ih true h with h1 | ⟨h1, h2⟩
        · exact Or.inl h1
        · exact Or.inr ⟨List.mem_cons_of_mem c h1, h2⟩
      | false =>
        rw [collapseWsGo_cons_sp_false hc, List.mem_cons] at h
        rcases h with h | h
        · exact Or.inl h
        · rcases ih true h with h1 | ⟨h1, h2⟩
          · exact Or.inl h1
          · exact Or.inr ⟨List.mem_cons_of_mem c h1, h2⟩
    · rw [collapseWsGo_cons_nsp hc, List.mem_cons] at h
      rcases h with h | h
      · subst h
        exact Or.inr ⟨List.mem_cons_self x r, by simpa using hc⟩
      · rcases ih false h with h1 | ⟨h1, h2⟩
        · exact Or.inl h1
        · exact Or.inr ⟨List.mem_cons_of_mem c h1, h2⟩

theorem mem_pyTitleGo {x : Char} :
    ∀ (b : Bool) (s : List Char), x ∈ pyTitleGo b s →
      ∃ c ∈ s, x = c ∨ x = c.toUpper ∨ x = c.toLower := by
  intro b s
  induction s generalizing b with
  | nil => intro h; exact absurd h (List.not_mem_nil x)
  | cons c r ih =>
    intro h
    by_cases hc : c.isAlpha = true
    · cases b with
      | true =>
        rw [pyTitleGo_cons_alpha_true hc, List.mem_cons] at h
        rcases h with h | h
        · exact ⟨c, List.mem_cons_self c r, Or.inr (Or.inr h)⟩
        · obtain ⟨d, hd, hx⟩ := ih true h
          exact ⟨d, List.mem_cons_of_mem c hd, hx⟩
      | false =>
        rw [pyTitleGo_cons_alpha_false hc, List.mem_cons] at h
        rcases h with h | h
        · exact ⟨c, List.mem_cons_self c r, Or.inr (Or.inl h)⟩
        · obtain ⟨d, hd, hx⟩ := ih true h
          exact ⟨d, List.mem_cons_of_mem c hd, hx⟩
    · rw [pyTitleGo_cons_nalpha hc, List.mem_cons] at h
      rcases h with h | h
      · exact ⟨c, List.mem_cons_self c r, Or.inl h⟩
      · obtain ⟨d, hd, hx⟩ := ih false h
        exact ⟨d, List.mem_cons_of_mem c hd, hx⟩

theorem nl_isPySpace : isPySpace '\n' = true := by decide

theorem normalizeTopic_no_newline (topic : List Char) :
    ∀ x ∈ normalizeTopic topic, ¬ x = '\n' := by
  intro x hx
  obtain ⟨c, hc, hcase⟩ := mem_pyTitleGo false (collapseWs (pyStrip topic)) hx
  rcases mem_collapseWsGo false (pyStrip topic) hc with hsp | ⟨_, hnsp⟩
  · subst hsp
    rcases hcase with h | h | h
    · subst h; decide
    · rw [toUpper_of_not_bounds (by decide)] at h
      subst h; decide
    · rw [toLower_of_not_bounds (by decide)] at h
      subst h; decide
  · have hcnl : ¬ c = '\n' := by
      intro he
      subst he
      rw [nl_isPySpace] at hnsp
      exact Bool.true_eq_false.mp hnsp
    rcases hcase with h | h | h
    · subst h; exact hcnl
    · subst h
      exact toUpper_ne_of_ne_of_low (by decide) hcnl
    · subst h
      exact toLower_ne_of_ne_of_low (by decide) hcnl

/-! ### Headings and the assembled document -/

theorem no_newline_append {a b : List Char} (ha : ∀ x ∈ a, ¬ x = '\n')
    (hb : ∀ x ∈ b, ¬ x = '\n') : ∀ x ∈ a ++ b, ¬ x = '\n' := by
  intro x hx
  rcases List.mem_append.mp hx with h | h
  · exact ha x h
  · exact hb x h

theorem introTemplate_eq (c : Fin 3) (t x : List Char) :
    introTemplate c t x = introHeading c t ++ ("\n\n").data ++ x := by
  fin_cases c <;> rfl

theorem ingredientsTemplate_eq (c : Fin 3) (x : List Char) :
    ingredientsTemplate c x = ingredientsHeading c ++ ("\n\n").data ++ x := by
  fin_cases c <;> rfl

theorem instructionsTemplate_eq (c : Fin 3) (x : List Char) :
    instructionsTemplate c x = instructionsHeading c ++ ("\n\n").data ++ x := by
  fin_cases c <;> rfl

theorem tipsTemplate_eq (c : Fin 3) (x : List Char) :
    tipsTemplate c x = tipsHeading c ++ ("\n\n").data ++ x := by
  fin_cases c <;> rfl

theorem nutritionTemplate_eq (c : Fin 3) (x : List Char) :
    nutritionTemplate c x = nutritionHeading c ++ ("\n\n").data ++ x := by
  fin_cases c <;> rfl

theorem conclusionTemplate_eq (c : Fin 3) (x : List Char) :
    conclusionTemplate c x = conclusionHeading c ++ ("\n\n").data ++ x := by
  fin_cases c <;> rfl

theorem introHeading_ne_nil (c : Fin 3) (t : List Char) : ¬ introHeading c t = [] := by
  fin_cases c <;> simp [introHeading]

theorem introHeading_no_newline (c : Fin 3) (t : List Char)
    (ht : ∀ x ∈ t, ¬ x = '\n') : ∀ x ∈ introHeading c t, ¬ x = '\n' := by
  fin_cases c
  · exact no_newline_append (by decide) ht
  · exact no_newline_append (by decide) ht
  · exact no_newline_append (no_newline_append (by decide) ht) (by decide)

theorem ingredientsHeading_ne_nil (c : Fin 3) : ¬ ingredientsHeading c = [] := by
  fin_cases c <;> decide

theorem ingredientsHeading_no_newline (c : Fin 3) :
    ∀ x ∈ ingredientsHeading c, ¬ x = '\n' := by
  fin_cases c <;> decide

theorem instructionsHeading_ne_nil (c : Fin 3) : ¬ instructionsHeading c = [] := by
  fin_cases c <;> decide

theorem instructionsHeading_no_newline (c : Fin 3) :
    ∀ x ∈ instructionsHeading c, ¬ x = '\n' := by
  fin_cases c <;> decide

theorem tipsHeading_ne_nil (c : Fin 3) : ¬ tipsHeading c = [] := by
  fin_cases c <;> decide

theorem tipsHeading_no_newline (c : Fin 3) :
    ∀ x ∈ tipsHeading c, ¬ x = '\n' := by
  fin_cases c <;> decide

theorem nutritionHeading_ne_nil (c : Fin 3) : ¬ nutritionHeading c = [] := by
  fin_cases c <;> decide

theorem nutritionHeading_no_newline (c : Fin 3) :
    ∀ x ∈ nutritionHeading c, ¬ x = '\n' := by
  fin_cases c <;> decide

theorem conclusionHeading_ne_nil (c : Fin 3) : ¬ conclusionHeading c = [] := by
  fin_cases c <;> decide

theorem conclusionHeading_no_newline (c : Fin 3) :
    ∀ x ∈ conclusionHeading c, ¬ x = '\n' := by
  fin_cases c <;> decide

theorem blogContent_decompose (title : List Char) (ht : ∀ x ∈ title, ¬ x = '\n')
    (tc : TemplateChoice) (t1 t2 t3 t4 t5 t6 : List Char) :
    ∃ g1 g2 g3 g4 g5 g6,
      collapseNewlines (blogContent title tc t1 t2 t3 t4 t5 t6)
        = introHeading tc.intro title ++ g1
          ++ ingredientsHeading tc.ingredients ++ g2
          ++ instructionsHeading tc.instructions ++ g3
          ++ tipsHeading tc.tips ++ g4
          ++ nutritionHeading tc.nutrition ++ g5
          ++ conclusionHeading tc.conclusion ++ g6 := by
  have hb : blogContent title tc t1 t2 t3 t4 t5 t6
      = introHeading tc.intro title
        ++ ((("\n\n").data ++ (t1 ++ ("\n\n").data))
        ++ (ingredientsHeading tc.ingredients
        ++ ((("\n\n").data ++ (t2 ++ ("\n\n").data))
        ++ (instructionsHeading tc.instructions
        ++ ((("\n\n").data ++ (t3 ++ ("\n\n").data))
        ++ (tipsHeading tc.tips
        ++ ((("\n\n").data ++ (t4 ++ ("\n\n").data))
        ++ (nutritionHeading tc.nutrition
        ++ ((("\n\n").data ++ (t5 ++ ("\n\n").data))
        ++ (conclusionHeading tc.conclusion
        ++ (("\n\n").data ++ t6))))))))))) := by
    simp only [blogContent, introTemplate_eq, ingredientsTemplate_eq, instructionsTemplate_eq,
      tipsTemplate_eq, nutritionTemplate_eq, conclusionTemplate_eq, List.append_assoc]
  have key : collapseNlGo 0 (blogContent title tc t1 t2 t3 t4 t5 t6)
      = introHeading tc.intro title
        ++ (collapseNlGo 0 (("\n\n").data ++ (t1 ++ ("\n\n").data))
        ++ (ingredientsHeading tc.ingredients
        ++ (collapseNlGo 0 (("\n\n").data ++ (t2 ++ ("\n\n").data))
        ++ (instructionsHeading tc.instructions
        ++ (collapseNlGo 0 (("\n\n").data ++ (t3 ++ ("\n\n").data))
        ++ (tipsHeading tc.tips
        ++ (collapseNlGo 0 (("\n\n").data ++ (t4 ++ ("\n\n").data))
        ++ (nutritionHeading tc.nutrition
        ++ (collapseNlGo 0 (("\n\n").data ++ (t5 ++ ("\n\n").data))
        ++ (conclusionHeading tc.conclusion
        ++ collapseNlGo 0 (("\n\n").data ++ t6))))))))))) := by
    rw [hb]
    rw [collapse_head_step (introHeading tc.intro title)
      (introHeading_no_newline tc.intro title ht) (introHeading_ne_nil tc.intro title)]
    rw [collapse_mid_step (ingredientsHeading tc.ingredients)
      (ingredientsHeading_no_newline tc.ingredients) (ingredientsHeading_ne_nil tc.ingredients)]
    rw [collapse_mid_step (instructionsHeading tc.instructions)
      (instructionsHeading_no_newline tc.instructions) (instructionsHeading_ne_nil tc.instructions)]
    rw [collapse_mid_step (tipsHeading tc.tips)
      (tipsHeading_no_newline tc.tips) (tipsHeading_ne_nil tc.tips)]
    rw [collapse_mid_step (nutritionHeading tc.nutrition)
      (nutritionHeading_no_newline tc.nutrition) (nutritionHeading_ne_nil tc.nutrition)]
    rw [collapse_mid_step (conclusionHeading tc.conclusion)
      (conclusionHeading_no_newline tc.conclusion) (conclusionHeading_ne_nil tc.conclusion)]
  refine ⟨collapseNlGo 0 (("\n\n").data ++ (t1 ++ ("\n\n").data)),
    collapseNlGo 0 (("\n\n").data ++ (t2 ++ ("\n\n").data)),
    collapseNlGo 0 (("\n\n").data ++ (t3 ++ ("\n\n").data)),
    collapseNlGo 0 (("\n\n").data ++ (t4 ++ ("\n\n").data)),
    collapseNlGo 0 (("\n\n").data ++ (t5 ++ ("\n\n").data)),
    collapseNlGo 0 (("\n\n").data ++ t6), ?_⟩
  have hcn : collapseNewlines (blogContent title tc t1 t2 t3 t4 t5 t6)
      = collapseNlGo 0 (blogContent title tc t1 t2 t3 t4 t5 t6) := rfl
  rw [hcn, key]
  simp [List.append_assoc]

/-- C4 (amended): every successful invocation returns a document in which
the six chosen section headings all occur, in the fixed order intro,
ingredients, instructions, tips, nutrition, conclusion — the document
decomposes as the six headings with interleaved text — and no section is
omitted even when its generated text is empty.  ("Exactly once" does not
hold in general: see the counterexample.) -/
theorem c4_headings_in_order (gen : RecipeGen) (topic : List Char) (wordCount : Nat)
    (tc : TemplateChoice) (doc : List Char)
    (h : tryBody gen topic wordCount tc = Except.ok doc) :
    ∃ g1 g2 g3 g4 g5 g6,
      doc = introHeading tc.intro (normalizeTopic topic) ++ g1
        ++ ingredientsHeading tc.ingredients ++ g2
        ++ instructionsHeading tc.instructions ++ g3
        ++ tipsHeading tc.tips ++ g4
        ++ nutritionHeading tc.nutrition ++ g5
        ++ conclusionHeading tc.conclusion ++ g6 := by
  simp only [tryBody] at h
  split at h
  · exact absurd h (by simp)
  · split at h
    · exact absurd h (by simp)
    · split at h
      · exact absurd h (by simp)
      · split at h
        · exact absurd h (by simp)
        · split at h
          · exact absurd h (by simp)
          · split at h
            · exact absurd h (by simp)
            · have hdoc := Except.ok.inj h
              rw [← hdoc]
              exact blogContent_decompose (normalizeTopic topic)
                (normalizeTopic_no_newline topic) tc _ _ _ _ _ _

theorem c4_headings_in_order_witness :
    ∃ g1 g2 g3 g4 g5 g6,
      (generateRecipeBlog (some emptyGen) none (("vegan pasta").data) 800 jokeZero tcZero).2
        = introHeading 0 (normalizeTopic (("vegan pasta").data)) ++ g1
          ++ ingredientsHeading 0 ++ g2
          ++ instructionsHeading 0 ++ g3
          ++ tipsHeading 0 ++ g4
          ++ nutritionHeading 0 ++ g5
          ++ conclusionHeading 0 ++ g6 :=
  c4_headings_in_order emptyGen (("vegan pasta").data) 800 tcZero
    ((generateRecipeBlog (some emptyGen) none (("vegan pasta").data) 800 jokeZero tcZero).2) rfl

/-! ### Structure of the replace scanner -/

theorem pyReplaceGo_nil (old new : List Char) (fuel : Nat) :
    pyReplaceGo old new fuel [] = [] := by
  cases fuel <;> rfl

theorem pyReplaceGo_cons_match {old new : List Char} {c : Char} {r : List Char} (fuel : Nat)
    (h : ¬ old = [] ∧ List.take old.length (c :: r) = old) :
    pyReplaceGo old new (fuel + 1) (c :: r)
      = new ++ pyReplaceGo old new fuel (List.drop old.length (c :: r)) := by
  simp only [pyReplaceGo]
  rw [if_pos h]

theorem pyReplaceGo_cons_nomatch {old new : List Char} {c : Char} {r : List Char} (fuel : Nat)
    (h : ¬ (¬ old = [] ∧ List.take old.length (c :: r) = old)) :
    pyReplaceGo old new (fuel + 1) (c :: r) = c :: pyReplaceGo old new fuel r := by
  simp only [pyReplaceGo]
  rw [if_neg h]

theorem pyReplaceGo_fuel_irrel (old new : List Char) :
    ∀ (f1 : Nat) (s : List Char) (f2 : Nat), s.length ≤ f1 → s.length ≤ f2 →
      pyReplaceGo old new f1 s = pyReplaceGo old new f2 s := by
  intro f1
  induction f1 with
  | zero =>
    intro s f2 h1 _
    have hs : s = [] := by
      cases s with
      | nil => rfl
      | cons c r => simp at h1
    subst hs
    rw [pyReplaceGo_nil, pyReplaceGo_nil]
  | succ f ih =>
    intro s f2 h1 h2
    cases s with
    | nil => rw [pyReplaceGo_nil, pyReplaceGo_nil]
    | cons c r =>
      cases f2 with
      | zero => simp at h2
      | succ f2' =>
        by_cases hm : ¬ old = [] ∧ List.take old.length (c :: r) = old
        · rw [pyReplaceGo_cons_match f hm, pyReplaceGo_cons_match f2' hm]
          have hold : 0 < old.length := List.length_pos.mpr hm.1
          have hlen : (List.drop old.length (c :: r)).length ≤ f := by
            rw [List.length_drop]
            simp only [List.length_cons] at h1 ⊢
            omega
          have hlen2 : (List.drop old.length (c :: r)).length ≤ f2' := by
            rw [List.length_drop]
            simp only [List.length_cons] at h2 ⊢
            omega
          rw [ih (List.drop old.length (c :: r)) f2' hlen hlen2]
        · rw [pyReplaceGo_cons_nomatch f hm, pyReplaceGo_cons_nomatch f2' hm]
          have hlen : r.length ≤ f := by
            simp only [List.length_cons] at h1
            omega
          have hlen2 : r.length ≤ f2' := by
            simp only [List.length_cons] at h2
            omega
          rw [ih r f2' hlen hlen2]

theorem pyReplace_no_occurrence {p : List Char} :
    ∀ (t : List Char), (¬ ∃ a b, t = a ++ (p ++ b)) → pyReplace t p [] = t := by
  have main : ∀ (fuel : Nat) (s : List Char), s.length ≤ fuel →
      (¬ ∃ a b, s = a ++ (p ++ b)) → pyReplaceGo p [] fuel s = s := by
    intro fuel
    induction fuel with
    | zero =>
      intro s h1 _
      have hs : s = [] := by
        cases s with
        | nil => rfl
        | cons c r => simp at h1
      subst hs
      rw [pyReplaceGo_nil]
    | succ f ih =>
      intro s h1 hocc
      cases s with
      | nil => rw [pyReplaceGo_nil]
      | cons c r =>
        have hm : ¬ (¬ p = [] ∧ List.take p.length (c :: r) = p) := by
          rintro ⟨-, htake⟩
          apply hocc
          refine ⟨[], List.drop p.length (c :: r), ?_⟩
          calc c :: r
              = List.take p.length (c :: r) ++ List.drop p.length (c :: r) :=
                (List.take_append_drop p.length (c :: r)).symm
            _ = p ++ List.drop p.length (c :: r) := by rw [htake]
            _ = [] ++ (p ++ List.drop p.length (c :: r)) := by rw [List.nil_append]
        rw [pyReplaceGo_cons_nomatch f hm]
        have hocc' : ¬ ∃ a b, r = a ++ (p ++ b) := by
          rintro ⟨a, b, hab⟩
          exact hocc ⟨c :: a, b, by rw [hab, List.cons_append]⟩
        have hlen : r.length ≤ f := by
          simp only [List.length_cons] at h1
          omega
        rw [ih r hlen hocc']
  intro t hocc
  exact main t.length t (Nat.le_refl t.length) hocc

theorem pyReplace_skip_match {p : List Char} (t : List Char)
    (hne : ¬ p = []) (hpre : List.take p.length t = p) :
    pyReplace t p [] = pyReplace (List.drop p.length t) p [] := by
  cases t with
  | nil =>
    exfalso
    apply hne
    rw [← hpre]
    simp
  | cons c r =>
    show pyReplaceGo p [] (c :: r).length (c :: r) = _
    rw [show (c :: r).length = r.length + 1 from rfl]
    rw [pyReplaceGo_cons_match r.length ⟨hne, hpre⟩, List.nil_append]
    apply pyReplaceGo_fuel_irrel
    · rw [List.length_drop]
      have : 0 < p.length := List.length_pos.mpr hne
      simp only [List.length_cons]
      omega
    · exact Nat.le_refl _

/-- C3 (amended): the adapter's post-processing is Python replace-all
followed by a trim.  When the prompt `p` is a prefix of the response `t`,
that prefix occurrence is removed and replacement continues on the
remainder — so occurrences of `p` after the prefix are removed as well,
not left in place; when `p` does not occur in `t` at all, the replace
step leaves `t` unchanged. -/
theorem c3_echo_amended (p t : List Char) :
    (¬ p = [] → List.take p.length t = p →
      stripEcho p t = pyStrip (pyReplace (List.drop p.length t) p []))
    ∧ ((¬ ∃ a b, t = a ++ (p ++ b)) → pyReplace t p [] = t) := by
  constructor
  · intro hne hpre
    show pyStrip (pyReplace t p []) = _
    rw [pyReplace_skip_match t hne hpre]
  · exact pyReplace_no_occurrence t

theorem c3_echo_amended_witness :
    stripEcho (("ab").data) (("abXab").data)
        = pyStrip (pyReplace (List.drop 2 (("abXab").data)) (("ab").data) [])
      ∧ pyReplace (("Xy").data) (("ab").data) [] = ("Xy").data := by
  constructor
  · exact (c3_echo_amended (("ab").data) (("abXab").data)).1 (by decide) (by decide)
  · refine (c3_echo_amended (("ab").data) (("Xy").data)).2 ?_
    rintro ⟨a, b, hab⟩
    have hlen := congrArg List.length hab
    rw [List.length_append, List.length_append] at hlen
    have e1 : (("Xy").data).length = 2 := rfl
    have e2 : (("ab").data).length = 2 := rfl
    rw [e1, e2] at hlen
    have ha0 : a.length = 0 := by omega
    have hb0 : b.length = 0 := by omega
    rw [List.length_eq_zero] at ha0 hb0
    subst ha0
    subst hb0
    rw [List.nil_append, List.append_nil] at hab
    exact absurd hab (by decide)

/-! ### The ingredients formatter as a per-line map -/

theorem foldl_ingredients (l : List (List Char)) :
    ∀ acc : List Char,
      l.foldl (fun acc line =>
        let s := pyStrip line
        if ¬ s = [] then
          if ¬ s.headD ' ' = '*' ∧ ¬ s.headD ' ' = '-' then
            acc ++ ("- ").data ++ s ++ ("\n").data
          else
            acc ++ s ++ ("\n").data
        else acc) acc
      = acc ++ (l.map (fun line =>
          if ¬ pyStrip line = [] then
            (if ¬ (pyStrip line).headD ' ' = '*' ∧ ¬ (pyStrip line).headD ' ' = '-' then
              ("- ").data ++ (pyStrip line ++ ("\n").data)
            else pyStrip line ++ ("\n").data)
          else [])).flatten := by
  induction l with
  | nil => intro acc; simp
  | cons x l ih =>
    intro acc
    rw [List.foldl_cons, List.map_cons, List.flatten_cons, ih]
    by_cases h1 : ¬ pyStrip x = []
    · by_cases h2 : ¬ (pyStrip x).headD ' ' = '*' ∧ ¬ (pyStrip x).headD ' ' = '-'
      · simp only [if_pos h1, if_pos h2]
        simp [List.append_assoc]
      · simp only [if_pos h1, if_neg h2]
        simp [List.append_assoc]
    · simp only [if_neg h1]
      simp

/-- C6 (amended): the ingredients formatter splits on line breaks, strips
each line of surrounding whitespace, drops lines that are blank after
stripping, prefixes a stripped line with a dash and a space when it does
not already start with `*` or `-`, keeps the stripped line otherwise,
and terminates every emitted line with a newline; in particular the
claim's example holds. -/
theorem c6_ingredients_amended :
    (∀ txt, formatIngredients txt
      = ((splitOnChar '\n' txt).map (fun line =>
          if ¬ pyStrip line = [] then
            (if ¬ (pyStrip line).headD ' ' = '*' ∧ ¬ (pyStrip line).headD ' ' = '-' then
              ("- ").data ++ (pyStrip line ++ ("\n").data)
            else pyStrip line ++ ("\n").data)
          else [])).flatten)
    ∧ formatIngredients (("flour\n- sugar\nsalt").data)
      = ("- flour\n- sugar\n- salt\n").data := by
  constructor
  · intro txt
    have h := foldl_ingredients (splitOnChar '\n' txt) []
    rw [List.nil_append] at h
    exact h
  · decide

/-! ### Splitting on a character -/

theorem splitOnChar_ne_nil (sep : Char) (s : List Char) : ¬ splitOnChar sep s = [] := by
  induction s with
  | nil => simp [splitOnChar]
  | cons c r ih =>
    by_cases hc : c = sep
    · simp [splitOnChar, hc]
    · simp only [splitOnChar, if_neg hc]
      cases hsp : splitOnChar sep r with
      | nil => simp
      | cons w ws => simp

theorem splitOnChar_cons_sep (sep : Char) (r : List Char) :
    splitOnChar sep (sep :: r) = [] :: splitOnChar sep r := by
  simp [splitOnChar]

theorem splitOnChar_cons_other {sep c : Char} (hc : ¬ c = sep) (r : List Char)
    {w : List Char} {ws : List (List Char)} (hsp : splitOnChar sep r = w :: ws) :
    splitOnChar sep (c :: r) = (c :: w) :: ws := by
  simp only [splitOnChar, if_neg hc, hsp]

theorem splitOnChar_exists (sep : Char) (s : List Char) :
    ∃ w ws, splitOnChar sep s = w :: ws := by
  cases hq : splitOnChar sep s with
  | nil => exact absurd hq (splitOnChar_ne_nil sep s)
  | cons a b => exact ⟨a, b, rfl⟩

/-! ### More character facts -/

theorem isPySpace_toNat_le {y : Char} (h : isPySpace y = true) : y.toNat ≤ 32 := by
  simp only [isPySpace, Bool.or_eq_true, beq_iff_eq] at h
  rcases h with ((((h | h) | h) | h) | h) | h <;> subst h <;> decide

theorem toUpper_not_pySpace {c : Char} (hc : isPySpace c = false)
    (h : isPySpace (c.toUpper) = true) : False := by
  by_cases hb : 97 ≤ c.toNat ∧ c.toNat ≤ 122
  · have h1 := toUpper_toNat_of_bounds hb
    have h2 := isPySpace_toNat_le h
    omega
  · rw [toUpper_of_not_bounds hb, hc] at h
    exact Bool.false_ne_true h

theorem toLower_not_pySpace {c : Char} (hc : isPySpace c = false)
    (h : isPySpace (c.toLower) = true) : False := by
  by_cases hb : 65 ≤ c.toNat ∧ c.toNat ≤ 90
  · have h1 := toLower_toNat_of_bounds hb
    have h2 := isPySpace_toNat_le h
    omega
  · rw [toLower_of_not_bounds hb, hc] at h
    exact Bool.false_ne_true h

/-! ### The ends of a stripped string are not whitespace -/

theorem head?_dropWhile_false (p : Char → Bool) (l : List Char) :
    ∀ x ∈ (l.dropWhile p).head?, p x = false := by
  intro x hx
  have h := List.head?_dropWhile_not p l
  cases heq : (l.dropWhile p).head? with
  | none => rw [heq] at hx; exact absurd hx (by simp)
  | some y =>
    rw [heq] at hx h
    simp only [Option.mem_def, Option.some.injEq] at hx
    subst hx
    exact h

theorem getLast?_dropWhile_of_ne_nil (p : Char → Bool) (l : List Char)
    (hne : ¬ l.dropWhile p = []) : (l.dropWhile p).getLast? = l.getLast? := by
  obtain ⟨t, ht⟩ := List.dropWhile_suffix p (l := l)
  conv_rhs => rw [← ht]
  rw [List.getLast?_append]
  cases hgl : (l.dropWhile p).getLast? with
  | none => exact absurd (List.getLast?_eq_none_iff.mp hgl) hne
  | some y => rfl

theorem pyStrip_head (s : List Char) : ∀ x ∈ (pyStrip s).head?, isPySpace x = false := by
  intro x hx
  unfold pyStrip at hx
  rw [List.head?_reverse] at hx
  by_cases hB : (s.dropWhile isPySpace).reverse.dropWhile isPySpace = []
  · rw [hB] at hx
    exact absurd hx (by simp)
  · rw [getLast?_dropWhile_of_ne_nil isPySpace _ hB, List.getLast?_reverse] at hx
    exact head?_dropWhile_false isPySpace s x hx

theorem pyStrip_getLast (s : List Char) :
    ∀ x ∈ (pyStrip s).getLast?, isPySpace x = false := by
  intro x hx
  unfold pyStrip at hx
  rw [List.getLast?_reverse] at hx
  exact head?_dropWhile_false isPySpace _ x hx

/-! ### Words of the collapsed string -/

theorem collapseWsGo_of_head_nsp {s : List Char}
    (h : ∀ x ∈ s.head?, isPySpace x = false) (b : Bool) :
    collapseWsGo b s = collapseWsGo false s := by
  cases s with
  | nil => rfl
  | cons c r =>
    have hc : isPySpace c = false := h c (by simp)
    rw [collapseWsGo_cons_nsp (by simp [hc]), collapseWsGo_cons_nsp (by simp [hc])]

theorem collapseWsGo_words (s : List Char) :
    ∀ (_ : ∀ x ∈ s.getLast?, isPySpace x = false),
      (¬ s = [] → ∀ w ∈ splitOnChar ' ' (collapseWsGo true s), ¬ w = [])
      ∧ (∀ w ∈ (splitOnChar ' ' (collapseWsGo false s)).tail, ¬ w = []) := by
  induction s with
  | nil =>
    intro _
    constructor
    · intro hne
      exact absurd rfl hne
    · intro w hw
      simp [collapseWsGo, splitOnChar] at hw
  | cons c r ih =>
    intro hlast
    have hlast_r : ∀ x ∈ r.getLast?, isPySpace x = false := by
      cases r with
      | nil => intro x hx; exact absurd hx (by simp)
      | cons d r' =>
        intro x hx
        apply hlast
        rw [List.getLast?_cons_cons]
        exact hx
    by_cases hc : isPySpace c = true
    · have hrne : ¬ r = [] := by
        intro he
        subst he
        have hl := hlast c (by rw [List.getLast?_singleton]; rfl)
        rw [hc] at hl
        exact Bool.true_eq_false.mp hl
      constructor
      · intro _ w hw
        rw [collapseWsGo_cons_sp_true hc] at hw
        exact (ih hlast_r).1 hrne w hw
      · intro w hw
        rw [collapseWsGo_cons_sp_false hc, splitOnChar_cons_sep] at hw
        simp only [List.tail_cons] at hw
        exact (ih hlast_r).1 hrne w hw
    · have hcsp : ¬ c = ' ' := by
        intro he
        subst he
        exact hc (by decide)
      obtain ⟨w0, ws0, hsp⟩ := splitOnChar_exists ' ' (collapseWsGo false r)
      have hsplit : splitOnChar ' ' (c :: collapseWsGo false r) = (c :: w0) :: ws0 :=
        splitOnChar_cons_other hcsp _ hsp
      have htail : ∀ w ∈ ws0, ¬ w = [] := by
        have h2 := (ih hlast_r).2
        rw [hsp] at h2
        simpa using h2
      constructor
      · intro _ w hw
        rw [collapseWsGo_cons_nsp hc, hsplit, List.mem_cons] at hw
        rcases hw with hw | hw
        · subst hw; simp
        · exact htail w hw
      · intro w hw
        rw [collapseWsGo_cons_nsp hc, hsplit] at hw
        simp only [List.tail_cons] at hw
        exact htail w hw

/-! ### Title-casing and words -/

theorem pyTitleGo_length (s : List Char) : ∀ b, (pyTitleGo b s).length = s.length := by
  induction s with
  | nil => intro b; rfl
  | cons c r ih =>
    intro b
    by_cases hc : c.isAlpha = true
    · cases b with
      | true => rw [pyTitleGo_cons_alpha_true hc]; simp [ih true]
      | false => rw [pyTitleGo_cons_alpha_false hc]; simp [ih true]
    · rw [pyTitleGo_cons_nalpha hc]; simp [ih false]

theorem pyTitleGo_ne_nil {v : List Char} (hv : ¬ v = []) (b : Bool) :
    ¬ pyTitleGo b v = [] := by
  intro he
  have hl := pyTitleGo_length v b
  rw [he] at hl
  simp only [List.length_nil] at hl
  exact hv (List.length_eq_zero.mp hl.symm)

theorem splitOnChar_pyTitleGo (u : List Char) :
    ∀ (b : Bool) (w : List Char) (ws : List (List Char)),
      splitOnChar ' ' u = w :: ws →
      splitOnChar ' ' (pyTitleGo b u) = pyTitleGo b w :: ws.map pyTitle := by
  induction u with
  | nil =>
    intro b w ws h
    simp only [splitOnChar] at h
    injection h with h1 h2
    subst h1
    subst h2
    rfl
  | cons c r ih =>
    intro b w ws h
    obtain ⟨w0, ws0, hsp⟩ := splitOnChar_exists ' ' r
    by_cases hc : c = ' '
    · subst hc
      rw [splitOnChar_cons_sep] at h
      injection h with h1 h2
      subst h1
      rw [← h2, hsp]
      rw [pyTitleGo_cons_nalpha (by decide), splitOnChar_cons_sep, ih false w0 ws0 hsp]
      rfl
    · rw [splitOnChar_cons_other hc r hsp] at h
      injection h with h1 h2
      subst h1
      subst h2
      by_cases ha : c.isAlpha = true
      · cases b with
        | true =>
          have hcl : ¬ c.toLower = ' ' := toLower_ne_of_ne_of_low (by decide) hc
          rw [pyTitleGo_cons_alpha_true ha,
            splitOnChar_cons_other hcl _ (ih true w0 ws0 hsp),
            pyTitleGo_cons_alpha_true ha]
        | false =>
          have hcu : ¬ c.toUpper = ' ' := toUpper_ne_of_ne_of_low (by decide) hc
          rw [pyTitleGo_cons_alpha_false ha,
            splitOnChar_cons_other hcu _ (ih true w0 ws0 hsp),
            pyTitleGo_cons_alpha_false ha]
      · rw [pyTitleGo_cons_nalpha ha,
          splitOnChar_cons_other hc _ (ih false w0 ws0 hsp),
          pyTitleGo_cons_nalpha ha]

/-- C8 (amended): title normalisation trims the ends and collapses every
whitespace run to a single space — every surviving whitespace character is
a plain space and no chunk between spaces is empty — and every word whose
first character is a letter starts with an uppercase letter.  (A word may
start with a non-letter, e.g. a digit, which is not uppercased: see the
counterexample.) -/
theorem c8_normalize_amended (topic : List Char) : NormalizedShape (normalizeTopic topic) := by
  obtain ⟨w0, ws0, hsp⟩ := splitOnChar_exists ' ' (collapseWs (pyStrip topic))
  have hT : splitOnChar ' ' (normalizeTopic topic) = pyTitleGo false w0 :: ws0.map pyTitle :=
    splitOnChar_pyTitleGo (collapseWs (pyStrip topic)) false w0 ws0 hsp
  refine ⟨?_, ?_, ?_⟩
  · intro x hx hxs
    obtain ⟨c, hc, hcase⟩ := mem_pyTitleGo false (collapseWs (pyStrip topic)) hx
    rcases mem_collapseWsGo false (pyStrip topic) hc with hspc | ⟨_, hnsp⟩
    · subst hspc
      rcases hcase with h | h | h
      · exact h
      · rw [toUpper_of_not_bounds (by decide)] at h
        exact h
      · rw [toLower_of_not_bounds (by decide)] at h
        exact h
    · exfalso
      rcases hcase with h | h | h
      · subst h
        rw [hnsp] at hxs
        exact Bool.false_ne_true hxs
      · subst h
        exact toUpper_not_pySpace hnsp hxs
      · subst h
        exact toLower_not_pySpace hnsp hxs
  · intro ht w hw
    by_cases hs : pyStrip topic = []
    · exfalso
      apply ht
      show pyTitleGo false (collapseWsGo false (pyStrip topic)) = []
      rw [hs]
      rfl
    · have hwords : ∀ v ∈ splitOnChar ' ' (collapseWs (pyStrip topic)), ¬ v = [] := by
        have h1 := (collapseWsGo_words (pyStrip topic) (pyStrip_getLast topic)).1 hs
        rw [collapseWsGo_of_head_nsp (pyStrip_head topic) true] at h1
        exact h1
      rw [hT, List.mem_cons] at hw
      rcases hw with hw | hw
      · subst hw
        apply pyTitleGo_ne_nil
        apply hwords w0
        rw [hsp]
        exact List.mem_cons_self w0 ws0
      · obtain ⟨v, hv, hveq⟩ := List.mem_map.mp hw
        rw [← hveq]
        apply pyTitleGo_ne_nil
        apply hwords v
        rw [hsp]
        exact List.mem_cons_of_mem w0 hv
  · intro w hw halpha
    rw [hT, List.mem_cons] at hw
    have key : ∀ v : List Char, w = pyTitleGo false v →
        (w.headD ' ').isAlpha = true → (w.headD ' ').isUpper = true := by
      intro v hveq hal
      cases v with
      | nil =>
        rw [hveq] at hal
        exact absurd hal (by decide)
      | cons c v' =>
        by_cases ha : c.isAlpha = true
        · rw [hveq, pyTitleGo_cons_alpha_false ha]
          simp only [List.headD_cons]
          exact isUpper_toUpper_of_isAlpha ha
        · rw [hveq, pyTitleGo_cons_nalpha ha] at hal
          simp only [List.headD_cons] at hal
          exact absurd hal ha
    rcases hw with hw | hw
    · exact key w0 hw halpha
    · obtain ⟨v, hv, hveq⟩ := List.mem_map.mp hw
      exact key v hveq.symm halpha

theorem c8_normalize_amended_witness : NormalizedShape (normalizeTopic (("vegan  pasta").data)) :=
  c8_normalize_amended (("vegan  pasta").data)
